import Mathlib

/-!
# headers-check: a shallow embedding of `header_checker.go`

The program loads four header-name lists, obtains a list of domains, performs one
HTTPS GET per domain, classifies the response header names against the four lists
and writes one CSV record per domain.

Conventions of the embedding.

* A Go `string` is a Lean `String`; the embedding covers text that is valid UTF-8
  (the format the list files and domain files are specified to have).
* A Go `map[string]bool` / `http.Header` is a `GoMap`: its distinct keys.  The code
  never reads a stored value, only whether a key exists.
* The order in which `range` visits a map is unspecified in Go; every `range`
  statement takes its order from a `RangeOrder`, an arbitrary family of
  permutations, so that a result holds for every order the runtime may pick.
* The outside world (file system, network, disk, standard input) is passed in
  explicitly.
* `displayResults` only prints; it has no part in any value modelled here.
-/

namespace HeadersCheck

deriving instance DecidableEq for Except

/-! ## The Go standard library functions the program calls -/

/-- Go `unicode.IsSpace`: the Unicode White_Space code points. -/
def isSpace (r : Char) : Bool :=
  let n := r.toNat
  (0x09 ≤ n && n ≤ 0x0D) || n == 0x20 || n == 0x85 || n == 0xA0 || n == 0x1680 ||
    (0x2000 ≤ n && n ≤ 0x200A) || n == 0x2028 || n == 0x2029 || n == 0x202F ||
    n == 0x205F || n == 0x3000

/-- Go `unicode.ToLower`: the ASCII range is decided in the function itself; a rune
above `unicode.MaxASCII` is looked up in the case tables, here the function `tbl`. -/
def unicodeToLower (tbl : Char → Char) (r : Char) : Char :=
  if r.toNat ≤ 0x7F then
    if 0x41 ≤ r.toNat ∧ r.toNat ≤ 0x5A then Char.ofNat (r.toNat + 0x20) else r
  else tbl r

/-- The lower-case mapping of Go's Unicode case tables (`unicode.CaseRanges`) for the
runes above `unicode.MaxASCII`, with the two facts about it that the development
relies on: a lower-cased rune is a fixed point of lower-casing, and lower-casing
never turns a rune that is not white space into white space. -/
structure CaseTable where
  /-- The table lookup `unicode.To(unicode.LowerCase, r)`. -/
  tbl : Char → Char
  /-- Lower-casing is idempotent on runes. -/
  idem : ∀ r, unicodeToLower tbl (unicodeToLower tbl r) = unicodeToLower tbl r
  /-- Lower-casing keeps a rune that is not white space that way. -/
  nonspace : ∀ r, isSpace r = false → isSpace (unicodeToLower tbl r) = false

/-- Go `strings.ToLower`: every rune mapped by `unicode.ToLower`. -/
def ToLower (T : CaseTable) (s : String) : String :=
  ⟨s.data.map (unicodeToLower T.tbl)⟩

/-- Go `strings.TrimSpace`: leading and trailing white space removed. -/
def TrimSpace (s : String) : String :=
  ⟨(s.data.dropWhile isSpace).rdropWhile isSpace⟩

/-- Go `strings.HasPrefix`. -/
def HasPrefix (s pre : String) : Bool :=
  pre.data.isPrefixOf s.data

/-- The loop of Go `strings.Split(s, sep)` for a one-rune separator: `cur` holds, in
reverse, the runes read since the last separator. -/
def splitGo (sep : Char) : List Char → List Char → List String
  | cur, [] => [⟨cur.reverse⟩]
  | cur, c :: cs =>
    if c = sep then ⟨cur.reverse⟩ :: splitGo sep [] cs else splitGo sep (c :: cur) cs

/-- Go `strings.Split(s, sep)` for a one-rune separator. -/
def Split (s : String) (sep : Char) : List String :=
  splitGo sep [] s.data

/-- The loop of Go `strings.Fields`: `cur` holds, in reverse, the runes of the field
being read. -/
def fieldsGo : List Char → List Char → List String
  | cur, [] => if cur = [] then [] else [⟨cur.reverse⟩]
  | cur, c :: cs =>
    if isSpace c then
      if cur = [] then fieldsGo [] cs else ⟨cur.reverse⟩ :: fieldsGo [] cs
    else fieldsGo (c :: cur) cs

/-- Go `strings.Fields`: the maximal runs of runes that are not white space. -/
def Fields (s : String) : List String :=
  fieldsGo [] s.data

/-- Go `strings.Join`. -/
def Join : List String → String → String
  | [], _ => ""
  | [a], _ => a
  | a :: b :: rest, sep => a ++ sep ++ Join (b :: rest) sep

/-- The ASCII-only case table: runes above `unicode.MaxASCII` are left alone. -/
def asciiTable : CaseTable where
  tbl := id
  idem := by
    intro r
    by_cases h : r.toNat ≤ 0x7F
    · have key : ∀ n, n < 0x80 → unicodeToLower id (unicodeToLower id (Char.ofNat n)) =
          unicodeToLower id (Char.ofNat n) := by decide
      have := key r.toNat (by omega)
      rwa [Char.ofNat_toNat] at this
    · simp [unicodeToLower, h]
  nonspace := by
    intro r hr
    by_cases h : r.toNat ≤ 0x7F
    · have key : ∀ n, n < 0x80 → isSpace (Char.ofNat n) = false →
          isSpace (unicodeToLower id (Char.ofNat n)) = false := by decide
      have := key r.toNat (by omega)
      rw [Char.ofNat_toNat] at this
      exact this hr
    · simpa [unicodeToLower, h] using hr

/-! ## Go maps and `range` -/

/-- A Go map as far as the program observes it: its keys, pairwise distinct. -/
structure GoMap where
  /-- The keys of the map. -/
  keys : List String
  /-- A map holds a key at most once. -/
  nodup : keys.Nodup
  deriving DecidableEq

/-- Go `make(map[string]bool)`. -/
def GoMap.empty : GoMap := ⟨[], List.nodup_nil⟩

/-- Go `_, ok := m[k]`. -/
def GoMap.has (m : GoMap) (k : String) : Bool := decide (k ∈ m.keys)

/-- Go `m[k] = true`. -/
def GoMap.set (m : GoMap) (k : String) : GoMap := ⟨m.keys.insert k, m.nodup.insert⟩

/-- The order in which the runtime visits the keys of a map: the `k`-th `range`
statement of a call visits the keys `l` in the order `visit k l`. -/
structure RangeOrder where
  /-- The visiting order of the `k`-th `range` statement. -/
  visit : Nat → List String → List String
  /-- Every key is visited exactly once. -/
  perm : ∀ k l, (visit k l).Perm l

/-- The keys of `m` as the `k`-th `range` statement visits them. -/
def RangeOrder.range (ρ : RangeOrder) (k : Nat) (m : GoMap) : List String :=
  ρ.visit k m.keys

/-- The runtime that visits keys in insertion order. -/
def RangeOrder.inOrder : RangeOrder := ⟨fun _ l => l, fun _ l => List.Perm.refl l⟩

/-- The runtime that visits keys in reverse insertion order. -/
def RangeOrder.reversed : RangeOrder := ⟨fun _ l => l.reverse, fun _ l => List.reverse_perm l⟩

/-! ## `loadHeaders` -/

/-- Go `loadHeaders`; `ReadFile` is `os.ReadFile`. -/
def loadHeaders (T : CaseTable) (ReadFile : String → Except String String)
    (filename : String) : Except String GoMap :=
  match ReadFile filename with
  | .error err => .error err
  | .ok file =>
    let lines := Split file '\n'
    .ok (lines.foldl (fun headers line =>
      let line := TrimSpace line
      if line ≠ "" ∧ HasPrefix line "#" = false then headers.set (ToLower T line)
      else headers) GoMap.empty)

/-! ## `readDomainsFromFile` -/

/-- Go `bufio.MaxScanTokenSize`, the buffer limit of a `bufio.Scanner`. -/
def MaxScanTokenSize : Nat := 64 * 1024

/-- The number of bytes of the UTF-8 encoding of a rune sequence. -/
def byteLen (data : List Char) : Nat := (data.map Char.utf8Size).sum

/-- Go `bufio.dropCR`: one trailing carriage return removed. -/
def dropCR (data : List Char) : List Char :=
  if data.getLast? = some '\r' then data.dropLast else data

/-- The error `bufio.ErrTooLong`. -/
def ErrTooLong : String := "bufio.Scanner: token too long"

/-- A `bufio.Scanner` with the default split function `bufio.ScanLines` run to its
end: the tokens that the successive `Scan` calls deliver and the final `Err()`.
`cur` holds, in reverse, the runes of the line being read.  A line is delivered
without its newline and without one trailing carriage return; an empty last line is
not delivered; a line that does not fit the buffer together with its newline stops
the scanner with `ErrTooLong`. -/
def scanGo : List Char → List Char → List String × Option String
  | cur, [] =>
    if cur = [] then ([], none)
    else if MaxScanTokenSize ≤ byteLen cur then ([], some ErrTooLong)
    else ([⟨dropCR cur.reverse⟩], none)
  | cur, c :: cs =>
    if c = '\n' then
      if MaxScanTokenSize ≤ byteLen cur then ([], some ErrTooLong)
      else (⟨dropCR cur.reverse⟩ :: (scanGo [] cs).1, (scanGo [] cs).2)
    else scanGo (c :: cur) cs

/-- Go `readDomainsFromFile`; `Open` is `os.Open` followed by reading the file. -/
def readDomainsFromFile (Open : String → Except String String)
    (filename : String) : Except String (List String) :=
  match Open filename with
  | .error err => .error err
  | .ok file =>
    let scanner := scanGo [] file.data
    let domains := scanner.1.foldl (fun domains text =>
      let domain := TrimSpace text
      if domain ≠ "" then domains ++ [domain] else domains) []
    match scanner.2 with
    | some err => .error err
    | none => .ok domains

/-! ## `analyzeHeaders` -/

/-- The five values `analyzeHeaders` returns. -/
structure ScanResult where
  /-- The domain that was passed in. -/
  domain : String
  /-- The list `missingList`. -/
  missing : List String
  /-- The list `insecureList`. -/
  insecure : List String
  /-- The list `securityList`. -/
  security : List String
  /-- The list `fingerprintList`. -/
  fingerprint : List String
  deriving DecidableEq

/-- Go `analyzeHeaders`; `Get` is `client.Get`, which yields the header map of the
response or fails. -/
def analyzeHeaders (T : CaseTable) (ρ : RangeOrder) (Get : String → Option GoMap)
    (domain : String)
    (missingHeaders insecureHeaders securityHeaders fingerprintHeaders : GoMap) :
    ScanResult :=
  let url := "https://" ++ domain
  match Get url with
  | none => ⟨domain, ["Failed to connect"], [], [], []⟩
  | some respHeader =>
    let foundHeaders := (ρ.range 0 respHeader).foldl
      (fun found header => found.set (ToLower T header)) GoMap.empty
    let missingList := (ρ.range 1 missingHeaders).foldl (fun list header =>
      if foundHeaders.has (ToLower T header) = false then list ++ [header] else list) []
    let insecureList := (ρ.range 2 respHeader).foldl (fun list header =>
      if insecureHeaders.has (ToLower T header) then list ++ [header] else list) []
    let securityList := (ρ.range 3 respHeader).foldl (fun list header =>
      if securityHeaders.has (ToLower T header) then list ++ [header] else list) []
    let fingerprintList := (ρ.range 4 respHeader).foldl (fun list header =>
      if fingerprintHeaders.has (ToLower T header) then list ++ [header] else list) []
    ⟨domain, missingList, insecureList, securityList, fingerprintList⟩

/-! ## `saveResultsToCSV` -/

/-- The disk as `saveResultsToCSV` meets it. -/
structure Disk where
  /-- Whether `os.Create(outputCSV)` succeeds. -/
  createOk : Bool
  /-- Whether the `k`-th call of `writer.Write` succeeds. -/
  writeOk : Nat → Bool
  /-- Whether the deferred `writer.Flush()` succeeds. -/
  flushOk : Bool

/-- The first record written to the CSV file. -/
def csvHeader : List String :=
  ["URL", "Missing Headers", "Insecure Headers", "Security Headers", "Fingerprint Headers"]

/-- Go `csv.Writer.Write` for the `k`-th record on the disk `disk`: the error it
returns, if any. -/
def writerWrite (disk : Disk) (k : Nat) (_record : List String) : Option String :=
  if disk.writeOk k then none else some "write error"

/-- Go `saveResultsToCSV`: the error it returns (`none` is `nil`) and the records it
hands to `writer.Write`, in order.  The value of every `writer.Write` call and of
the deferred `writer.Flush()` and `file.Close()` is dropped by the code. -/
def saveResultsToCSV (disk : Disk) (results : List (List String)) :
    Option String × List (List String) :=
  if disk.createOk = false then (some "open header_analysis.csv", [])
  else
    let _ := writerWrite disk 0 csvHeader
    let written := [csvHeader]
    let written := results.foldl (fun written result =>
      let _ := writerWrite disk written.length result
      written ++ [result]) written
    let _ := disk.flushOk
    (none, written)

/-! ## `main` -/

/-- Go `fmt.(*ss).SkipSpace` as `fmt.Scanln` runs it: leading blanks are skipped; a
newline or the end of input met there is an error (`none`). -/
def skipSpace : List Char → Option (List Char)
  | [] => none
  | r :: rs => if r = '\n' then none else if isSpace r then skipSpace rs else some (r :: rs)

/-- Go `fmt.Scanln(&v)` for one string operand whose value is `""` before the call:
the value of the operand after the call, when the unread standard input is `input`.
An error while skipping the leading blanks leaves the operand alone; otherwise the
operand receives the runes up to the next white space.  What follows that word on
the line does not reach the operand. -/
def Scanln (input : String) : String :=
  match skipSpace input.data with
  | none => ""
  | some rest => ⟨rest.takeWhile (fun r => !isSpace r)⟩

/-- The domain list of `main`: `line1` and `line2` are the lines the user types at
the two prompts. -/
def mainDomains (Open : String → Except String String) (line1 line2 : String) :
    Except String (List String) :=
  let filename := Scanln line1
  if filename ≠ "" then readDomainsFromFile Open filename
  else
    let input := Scanln line2
    .ok (Fields input)

/-- The record `main` appends to `results` for one call of `analyzeHeaders`. -/
def resultRow (r : ScanResult) : List String :=
  [r.domain, Join r.missing "; ", Join r.insecure "; ", Join r.security "; ",
    Join r.fingerprint "; "]

/-- The scan loop of `main` from the `i`-th domain on: `ρ i` and `Get i` are the
runtime's visiting order and the network during the `i`-th call. -/
def scanLoop (T : CaseTable) (ρ : Nat → RangeOrder) (Get : Nat → String → Option GoMap)
    (missingHeaders insecureHeaders securityHeaders fingerprintHeaders : GoMap) :
    Nat → List String → List (List String)
  | _, [] => []
  | i, domain :: rest =>
    resultRow (analyzeHeaders T (ρ i) (Get i) domain missingHeaders insecureHeaders
      securityHeaders fingerprintHeaders) ::
      scanLoop T ρ Get missingHeaders insecureHeaders securityHeaders fingerprintHeaders
        (i + 1) rest

/-- A domain file of two lines, the first of `MaxScanTokenSize` letters `a`, the
second `b.com`. -/
def longFile : String :=
  ⟨List.replicate MaxScanTokenSize 'a' ++ ['\n', 'b', '.', 'c', 'o', 'm']⟩

/-! ## The library functions at concrete inputs -/

theorem ToLower_example : ToLower asciiTable "X-Frame-Options" = "x-frame-options" := by
  decide

theorem TrimSpace_example : TrimSpace "  X-Frame-Options \r" = "X-Frame-Options" := by
  decide

theorem Split_example : Split "a\nb\n" '\n' = ["a", "b", ""] := by
  decide

theorem Fields_example : Fields " a.com  b.com " = ["a.com", "b.com"] := by
  decide

theorem Join_example : Join ["a", "b", "c"] "; " = "a; b; c" := by
  decide

theorem Scanln_example : Scanln "a.com b.com\n" = "a.com" ∧ Scanln "\n" = "" := by
  decide

theorem scanGo_example : scanGo [] "a\r\n\nb".data = (["a", "", "b"], none) := by
  decide

/-! ## Lemmas on maps and `range` loops -/

theorem foldl_append_if {α : Type} (p : α → Bool) (l : List α) (init : List α) :
    l.foldl (fun list x => if p x then list ++ [x] else list) init = init ++ l.filter p := by
  induction l generalizing init with
  | nil => simp
  | cons x xs ih =>
    simp only [List.foldl_cons, ih, List.filter_cons]
    by_cases hx : p x = true <;> simp [hx]

theorem foldl_append_if_false {α : Type} (p : α → Bool) (l : List α) (init : List α) :
    l.foldl (fun list x => if p x = false then list ++ [x] else list) init =
      init ++ l.filter (fun x => !p x) := by
  induction l generalizing init with
  | nil => simp
  | cons x xs ih =>
    simp only [List.foldl_cons, ih, List.filter_cons]
    by_cases hx : p x = true <;> simp [hx]

theorem GoMap.mem_set (m : GoMap) (k e : String) :
    e ∈ (m.set k).keys ↔ e = k ∨ e ∈ m.keys := by
  simp [GoMap.set, List.mem_insert_iff]

theorem GoMap.has_iff (m : GoMap) (k : String) : m.has k = true ↔ k ∈ m.keys := by
  simp [GoMap.has]

theorem GoMap.has_eq_false_iff (m : GoMap) (k : String) : m.has k = false ↔ k ∉ m.keys := by
  simp [GoMap.has]

theorem mem_foldl_set (f : String → String) (l : List String) (m : GoMap) (e : String) :
    e ∈ (l.foldl (fun found header => found.set (f header)) m).keys ↔
      e ∈ m.keys ∨ ∃ h ∈ l, e = f h := by
  induction l generalizing m with
  | nil => simp
  | cons x xs ih =>
    simp only [List.foldl_cons, ih, GoMap.mem_set, List.mem_cons]
    constructor
    · rintro ((h | h) | ⟨y, hy, rfl⟩)
      · exact Or.inr ⟨x, Or.inl rfl, h⟩
      · exact Or.inl h
      · exact Or.inr ⟨y, Or.inr hy, rfl⟩
    · rintro (h | ⟨y, (rfl | hy), rfl⟩)
      · exact Or.inl (Or.inr h)
      · exact Or.inl (Or.inl rfl)
      · exact Or.inr ⟨y, hy, rfl⟩

theorem RangeOrder.mem_range (ρ : RangeOrder) (k : Nat) (m : GoMap) (e : String) :
    e ∈ ρ.range k m ↔ e ∈ m.keys :=
  (ρ.perm k m.keys).mem_iff

theorem RangeOrder.nodup_range (ρ : RangeOrder) (k : Nat) (m : GoMap) :
    (ρ.range k m).Nodup :=
  (ρ.perm k m.keys).nodup_iff.mpr m.nodup

/-- The set `foundHeaders` that `analyzeHeaders` builds from a response. -/
theorem mem_foundHeaders (T : CaseTable) (ρ : RangeOrder) (H : GoMap) (e : String) :
    e ∈ ((ρ.range 0 H).foldl (fun found header => found.set (ToLower T header))
      GoMap.empty).keys ↔ ∃ h ∈ H.keys, e = ToLower T h := by
  rw [mem_foldl_set]
  simp [GoMap.empty, RangeOrder.mem_range]

theorem analyzeHeaders_missing_eq (T : CaseTable) (ρ : RangeOrder)
    (Get : String → Option GoMap) (domain : String) (M I S F H : GoMap)
    (hget : Get ("https://" ++ domain) = some H) :
    (analyzeHeaders T ρ Get domain M I S F).missing =
      (ρ.range 1 M).filter (fun m => !((ρ.range 0 H).foldl
        (fun found header => found.set (ToLower T header)) GoMap.empty).has (ToLower T m)) := by
  simp only [analyzeHeaders, hget]
  rw [foldl_append_if_false]
  simp

theorem analyzeHeaders_insecure_eq (T : CaseTable) (ρ : RangeOrder)
    (Get : String → Option GoMap) (domain : String) (M I S F H : GoMap)
    (hget : Get ("https://" ++ domain) = some H) :
    (analyzeHeaders T ρ Get domain M I S F).insecure =
      (ρ.range 2 H).filter (fun h => I.has (ToLower T h)) := by
  simp only [analyzeHeaders, hget]
  rw [foldl_append_if]
  simp

theorem analyzeHeaders_security_eq (T : CaseTable) (ρ : RangeOrder)
    (Get : String → Option GoMap) (domain : String) (M I S F H : GoMap)
    (hget : Get ("https://" ++ domain) = some H) :
    (analyzeHeaders T ρ Get domain M I S F).security =
      (ρ.range 3 H).filter (fun h => S.has (ToLower T h)) := by
  simp only [analyzeHeaders, hget]
  rw [foldl_append_if]
  simp

theorem analyzeHeaders_fingerprint_eq (T : CaseTable) (ρ : RangeOrder)
    (Get : String → Option GoMap) (domain : String) (M I S F H : GoMap)
    (hget : Get ("https://" ++ domain) = some H) :
    (analyzeHeaders T ρ Get domain M I S F).fingerprint =
      (ρ.range 4 H).filter (fun h => F.has (ToLower T h)) := by
  simp only [analyzeHeaders, hget]
  rw [foldl_append_if]
  simp

theorem mem_missing_iff (T : CaseTable) (ρ : RangeOrder)
    (Get : String → Option GoMap) (domain : String) (M I S F H : GoMap)
    (hget : Get ("https://" ++ domain) = some H) (m : String) :
    m ∈ (analyzeHeaders T ρ Get domain M I S F).missing ↔
      m ∈ M.keys ∧ ∀ h ∈ H.keys, ToLower T h ≠ ToLower T m := by
  rw [analyzeHeaders_missing_eq T ρ Get domain M I S F H hget, List.mem_filter,
    RangeOrder.mem_range]
  simp only [Bool.not_eq_true', GoMap.has_eq_false_iff, mem_foundHeaders]
  constructor
  · rintro ⟨hm, hno⟩
    exact ⟨hm, fun h hh heq => hno ⟨h, hh, heq.symm⟩⟩
  · rintro ⟨hm, hno⟩
    exact ⟨hm, fun ⟨h, hh, heq⟩ => hno h hh heq.symm⟩

/-! ## The claims -/

/-- C1: after a successful request with header map `H`, the missing list holds
exactly the keys `m` of `missingSet` whose lower-case form is not the lower-case
form of a header name of `H`, each of them once; a string that is not a key of
`missingSet` is never in it. -/
theorem analyzeHeaders_missing_exact (T : CaseTable) (ρ : RangeOrder)
    (Get : String → Option GoMap) (domain : String)
    (missingSet insecureSet securitySet fingerprintSet H : GoMap)
    (hget : Get ("https://" ++ domain) = some H) :
    (∀ m, m ∈ (analyzeHeaders T ρ Get domain missingSet insecureSet securitySet
        fingerprintSet).missing ↔
      m ∈ missingSet.keys ∧ ∀ h ∈ H.keys, ToLower T h ≠ ToLower T m) ∧
    (∀ m, m ∈ missingSet.keys → (∀ h ∈ H.keys, ToLower T h ≠ ToLower T m) →
      (analyzeHeaders T ρ Get domain missingSet insecureSet securitySet
        fingerprintSet).missing.count m = 1) ∧
    (∀ m, m ∉ missingSet.keys →
      (analyzeHeaders T ρ Get domain missingSet insecureSet securitySet
        fingerprintSet).missing.count m = 0) := by
  have hmem := mem_missing_iff T ρ Get domain missingSet insecureSet securitySet
    fingerprintSet H hget
  have hnd : (analyzeHeaders T ρ Get domain missingSet insecureSet securitySet
      fingerprintSet).missing.Nodup := by
    rw [analyzeHeaders_missing_eq T ρ Get domain missingSet insecureSet securitySet
      fingerprintSet H hget]
    exact (ρ.nodup_range 1 missingSet).filter _
  refine ⟨hmem, ?_, ?_⟩
  · intro m hm hno
    exact List.count_eq_one_of_mem hnd ((hmem m).mpr ⟨hm, hno⟩)
  · intro m hm
    exact List.count_eq_zero_of_not_mem (fun h => hm ((hmem m).mp h).1)

/-- C1 at the example of the specification: the list `content-security-policy`,
`x-frame-options` and a response with the one header `Content-Security-Policy` give
the missing list `x-frame-options`, whatever order the runtime visits the keys in. -/
theorem analyzeHeaders_missing_exact_witness :
    (fun _ => some (⟨["Content-Security-Policy"], by decide⟩ : GoMap))
        ("https://" ++ "example.com") = some ⟨["Content-Security-Policy"], by decide⟩ ∧
    (analyzeHeaders asciiTable RangeOrder.reversed
        (fun _ => some ⟨["Content-Security-Policy"], by decide⟩) "example.com"
        ⟨["content-security-policy", "x-frame-options"], by decide⟩
        GoMap.empty GoMap.empty GoMap.empty).missing = ["x-frame-options"] ∧
    (analyzeHeaders asciiTable RangeOrder.reversed
        (fun _ => some ⟨["Content-Security-Policy"], by decide⟩) "example.com"
        ⟨["content-security-policy", "x-frame-options"], by decide⟩
        GoMap.empty GoMap.empty GoMap.empty).missing.count "x-frame-options" = 1 :=
  ⟨rfl, by decide,
    (analyzeHeaders_missing_exact asciiTable RangeOrder.reversed
      (fun _ => some ⟨["Content-Security-Policy"], by decide⟩) "example.com"
      ⟨["content-security-policy", "x-frame-options"], by decide⟩
      GoMap.empty GoMap.empty GoMap.empty ⟨["Content-Security-Policy"], by decide⟩ rfl).2.1
      "x-frame-options" (by decide) (by decide)⟩

/-- C2: after a successful request with header map `H`, each of the insecure,
security and fingerprint lists holds exactly the header names of `H` whose
lower-case form is a key of the respective reference set, each of them once; a
header whose lower-case form is in two reference sets is in both lists; and each
list is the same whatever the other three reference sets are. -/
theorem analyzeHeaders_categories_exact (T : CaseTable) (ρ : RangeOrder)
    (Get : String → Option GoMap) (domain : String)
    (missingSet insecureSet securitySet fingerprintSet H : GoMap)
    (hget : Get ("https://" ++ domain) = some H) :
    ((∀ h, h ∈ (analyzeHeaders T ρ Get domain missingSet insecureSet securitySet
          fingerprintSet).insecure ↔ h ∈ H.keys ∧ ToLower T h ∈ insecureSet.keys) ∧
      (∀ h, h ∈ (analyzeHeaders T ρ Get domain missingSet insecureSet securitySet
          fingerprintSet).security ↔ h ∈ H.keys ∧ ToLower T h ∈ securitySet.keys) ∧
      (∀ h, h ∈ (analyzeHeaders T ρ Get domain missingSet insecureSet securitySet
          fingerprintSet).fingerprint ↔ h ∈ H.keys ∧ ToLower T h ∈ fingerprintSet.keys)) ∧
    ((analyzeHeaders T ρ Get domain missingSet insecureSet securitySet
          fingerprintSet).insecure.Nodup ∧
      (analyzeHeaders T ρ Get domain missingSet insecureSet securitySet
          fingerprintSet).security.Nodup ∧
      (analyzeHeaders T ρ Get domain missingSet insecureSet securitySet
          fingerprintSet).fingerprint.Nodup) ∧
    (∀ h, h ∈ H.keys → ToLower T h ∈ insecureSet.keys → ToLower T h ∈ securitySet.keys →
      h ∈ (analyzeHeaders T ρ Get domain missingSet insecureSet securitySet
          fingerprintSet).insecure ∧
      h ∈ (analyzeHeaders T ρ Get domain missingSet insecureSet securitySet
          fingerprintSet).security) ∧
    ((∀ M S F : GoMap, (analyzeHeaders T ρ Get domain M insecureSet S F).insecure =
        (analyzeHeaders T ρ Get domain missingSet insecureSet securitySet
          fingerprintSet).insecure) ∧
      (∀ M I F : GoMap, (analyzeHeaders T ρ Get domain M I securitySet F).security =
        (analyzeHeaders T ρ Get domain missingSet insecureSet securitySet
          fingerprintSet).security) ∧
      (∀ M I S : GoMap, (analyzeHeaders T ρ Get domain M I S fingerprintSet).fingerprint =
        (analyzeHeaders T ρ Get domain missingSet insecureSet securitySet
          fingerprintSet).fingerprint)) := by
  have hi := analyzeHeaders_insecure_eq T ρ Get domain
  have hs := analyzeHeaders_security_eq T ρ Get domain
  have hf := analyzeHeaders_fingerprint_eq T ρ Get domain
  have mi : ∀ h, h ∈ (analyzeHeaders T ρ Get domain missingSet insecureSet securitySet
      fingerprintSet).insecure ↔ h ∈ H.keys ∧ ToLower T h ∈ insecureSet.keys := by
    intro h
    rw [hi _ _ _ _ H hget, List.mem_filter, RangeOrder.mem_range, GoMap.has_iff]
  have ms : ∀ h, h ∈ (analyzeHeaders T ρ Get domain missingSet insecureSet securitySet
      fingerprintSet).security ↔ h ∈ H.keys ∧ ToLower T h ∈ securitySet.keys := by
    intro h
    rw [hs _ _ _ _ H hget, List.mem_filter, RangeOrder.mem_range, GoMap.has_iff]
  have mf : ∀ h, h ∈ (analyzeHeaders T ρ Get domain missingSet insecureSet securitySet
      fingerprintSet).fingerprint ↔ h ∈ H.keys ∧ ToLower T h ∈ fingerprintSet.keys := by
    intro h
    rw [hf _ _ _ _ H hget, List.mem_filter, RangeOrder.mem_range, GoMap.has_iff]
  refine ⟨⟨mi, ms, mf⟩, ⟨?_, ?_, ?_⟩, ?_, ⟨?_, ?_, ?_⟩⟩
  · rw [hi _ _ _ _ H hget]
    exact (ρ.nodup_range 2 H).filter _
  · rw [hs _ _ _ _ H hget]
    exact (ρ.nodup_range 3 H).filter _
  · rw [hf _ _ _ _ H hget]
    exact (ρ.nodup_range 4 H).filter _
  · intro h hh h1 h2
    exact ⟨(mi h).mpr ⟨hh, h1⟩, (ms h).mpr ⟨hh, h2⟩⟩
  · intro M S F
    rw [hi _ _ _ _ H hget, hi _ _ _ _ H hget]
  · intro M I F
    rw [hs _ _ _ _ H hget, hs _ _ _ _ H hget]
  · intro M I S
    rw [hf _ _ _ _ H hget, hf _ _ _ _ H hget]

/-- C2 at a concrete response: `Server` is listed both as insecure and as a
fingerprint header and is reported in both lists. -/
theorem analyzeHeaders_categories_exact_witness :
    (fun _ => some (⟨["Server", "X-Frame-Options"], by decide⟩ : GoMap))
        ("https://" ++ "example.com") = some ⟨["Server", "X-Frame-Options"], by decide⟩ ∧
    ("Server" ∈ (analyzeHeaders asciiTable RangeOrder.inOrder
        (fun _ => some ⟨["Server", "X-Frame-Options"], by decide⟩) "example.com"
        GoMap.empty ⟨["server"], by decide⟩ ⟨["x-frame-options"], by decide⟩
        ⟨["server"], by decide⟩).insecure ↔
      "Server" ∈ ["Server", "X-Frame-Options"] ∧
        ToLower asciiTable "Server" ∈ ["server"]) ∧
    (analyzeHeaders asciiTable RangeOrder.inOrder
        (fun _ => some ⟨["Server", "X-Frame-Options"], by decide⟩) "example.com"
        GoMap.empty ⟨["server"], by decide⟩ ⟨["x-frame-options"], by decide⟩
        ⟨["server"], by decide⟩) =
      ⟨"example.com", [], ["Server"], ["X-Frame-Options"], ["Server"]⟩ :=
  ⟨rfl,
    (analyzeHeaders_categories_exact asciiTable RangeOrder.inOrder
      (fun _ => some ⟨["Server", "X-Frame-Options"], by decide⟩) "example.com"
      GoMap.empty ⟨["server"], by decide⟩ ⟨["x-frame-options"], by decide⟩
      ⟨["server"], by decide⟩ ⟨["Server", "X-Frame-Options"], by decide⟩ rfl).1.1 "Server",
    by decide⟩

theorem analyzeHeaders_domain (T : CaseTable) (ρ : RangeOrder)
    (Get : String → Option GoMap) (domain : String) (M I S F : GoMap) :
    (analyzeHeaders T ρ Get domain M I S F).domain = domain := by
  cases h : Get ("https://" ++ domain) <;> simp only [analyzeHeaders, h]

theorem scanLoop_length (T : CaseTable) (ρ : Nat → RangeOrder)
    (Get : Nat → String → Option GoMap) (M I S F : GoMap) (k : Nat) (ds : List String) :
    (scanLoop T ρ Get M I S F k ds).length = ds.length := by
  induction ds generalizing k with
  | nil => rfl
  | cons d rest ih => simp [scanLoop, ih]

theorem scanLoop_getElem (T : CaseTable) (ρ : Nat → RangeOrder)
    (Get : Nat → String → Option GoMap) (M I S F : GoMap) (k : Nat) (ds : List String)
    (j : Nat) (hj : j < ds.length) :
    (scanLoop T ρ Get M I S F k ds)[j]? =
      some (resultRow (analyzeHeaders T (ρ (k + j)) (Get (k + j)) ds[j] M I S F)) := by
  induction ds generalizing k j with
  | nil => simp at hj
  | cons d rest ih =>
    cases j with
    | zero => simp [scanLoop]
    | succ j =>
      have hj2 : j < rest.length := by simpa using hj
      simp only [scanLoop, List.getElem?_cons_succ, List.getElem_cons_succ]
      rw [ih (k + 1) j hj2]
      have : k + 1 + j = k + (j + 1) := by omega
      rw [this]

/-- C3: when the GET for the `i`-th domain fails, `analyzeHeaders` returns that
domain unchanged with the missing list `["Failed to connect"]` and the other three
lists empty; the scan loop still records one row per domain, the row of the failed
domain holds the domain and the sentinel, and every domain of the list, the later
ones included, gets the row of its own call. -/
theorem failed_request_reported (T : CaseTable) (ρ : Nat → RangeOrder)
    (Get : Nat → String → Option GoMap) (M I S F : GoMap) (ds : List String) (i : Nat)
    (hi : i < ds.length) (hfail : Get i ("https://" ++ ds[i]) = none) :
    analyzeHeaders T (ρ i) (Get i) ds[i] M I S F =
      ⟨ds[i], ["Failed to connect"], [], [], []⟩ ∧
    (scanLoop T ρ Get M I S F 0 ds).length = ds.length ∧
    (scanLoop T ρ Get M I S F 0 ds)[i]? = some [ds[i], "Failed to connect", "", "", ""] ∧
    (∀ j (hj : j < ds.length), (scanLoop T ρ Get M I S F 0 ds)[j]? =
      some (resultRow (analyzeHeaders T (ρ j) (Get j) ds[j] M I S F))) := by
  have h1 : analyzeHeaders T (ρ i) (Get i) ds[i] M I S F =
      ⟨ds[i], ["Failed to connect"], [], [], []⟩ := by
    simp only [analyzeHeaders, hfail]
  have hall : ∀ j (hj : j < ds.length), (scanLoop T ρ Get M I S F 0 ds)[j]? =
      some (resultRow (analyzeHeaders T (ρ j) (Get j) ds[j] M I S F)) := by
    intro j hj
    have := scanLoop_getElem T ρ Get M I S F 0 ds j hj
    simpa using this
  refine ⟨h1, scanLoop_length T ρ Get M I S F 0 ds, ?_, hall⟩
  rw [hall i hi, h1]
  rfl

/-- C3 at a concrete run: of three domains the second cannot be reached. -/
theorem failed_request_reported_witness :
    (scanLoop asciiTable (fun _ => RangeOrder.inOrder)
      (fun i _ => if i = 1 then none else some ⟨["Server"], by decide⟩)
      GoMap.empty ⟨["server"], by decide⟩ GoMap.empty GoMap.empty 0
      ["a.com", "b.com", "c.com"])[1]? = some ["b.com", "Failed to connect", "", "", ""] ∧
    scanLoop asciiTable (fun _ => RangeOrder.inOrder)
      (fun i _ => if i = 1 then none else some ⟨["Server"], by decide⟩)
      GoMap.empty ⟨["server"], by decide⟩ GoMap.empty GoMap.empty 0
      ["a.com", "b.com", "c.com"] =
    [["a.com", "", "Server", "", ""], ["b.com", "Failed to connect", "", "", ""],
      ["c.com", "", "Server", "", ""]] :=
  ⟨(failed_request_reported asciiTable (fun _ => RangeOrder.inOrder)
      (fun i _ => if i = 1 then none else some ⟨["Server"], by decide⟩)
      GoMap.empty ⟨["server"], by decide⟩ GoMap.empty GoMap.empty
      ["a.com", "b.com", "c.com"] 1 (by decide) rfl).2.2.1, by decide⟩

theorem foldl_append_singleton {α : Type} (l init : List α) :
    l.foldl (fun written result => written ++ [result]) init = init ++ l := by
  induction l generalizing init with
  | nil => simp
  | cons x xs ih => simp [ih]

theorem saveResultsToCSV_written (disk : Disk) (results : List (List String)) :
    (saveResultsToCSV disk results).2 =
      if disk.createOk = true then csvHeader :: results else [] := by
  unfold saveResultsToCSV
  cases disk.createOk <;> simp [foldl_append_singleton]

theorem scanLoop_row_length (T : CaseTable) (ρ : Nat → RangeOrder)
    (Get : Nat → String → Option GoMap) (M I S F : GoMap) (k : Nat) (ds : List String) :
    ∀ row ∈ scanLoop T ρ Get M I S F k ds, row.length = 5 := by
  induction ds generalizing k with
  | nil => simp [scanLoop]
  | cons d rest ih =>
    intro row hrow
    simp only [scanLoop, List.mem_cons] at hrow
    rcases hrow with rfl | hrow
    · rfl
    · exact ih (k + 1) row hrow

/-- C8: for every domain list and every outcome of the requests, the fixed header
record followed by the records of `main` are `len(ds)+1` records, and they are the
records handed to the CSV writer once the file is created; every data record has 5
fields; the `i`-th data record holds the `i`-th domain and then the missing,
insecure, security and fingerprint lists of that domain's call of `analyzeHeaders`,
each joined with `"; "`. -/
theorem csv_records (T : CaseTable) (ρ : Nat → RangeOrder)
    (Get : Nat → String → Option GoMap) (M I S F : GoMap) (ds : List String)
    (disk : Disk) :
    csvHeader = ["URL", "Missing Headers", "Insecure Headers", "Security Headers",
      "Fingerprint Headers"] ∧
    (csvHeader :: scanLoop T ρ Get M I S F 0 ds).length = ds.length + 1 ∧
    (saveResultsToCSV disk (scanLoop T ρ Get M I S F 0 ds)).2 =
      (if disk.createOk = true then csvHeader :: scanLoop T ρ Get M I S F 0 ds else []) ∧
    (∀ row ∈ scanLoop T ρ Get M I S F 0 ds, row.length = 5) ∧
    (∀ i (hi : i < ds.length), (scanLoop T ρ Get M I S F 0 ds)[i]? =
      some [ds[i],
        Join (analyzeHeaders T (ρ i) (Get i) ds[i] M I S F).missing "; ",
        Join (analyzeHeaders T (ρ i) (Get i) ds[i] M I S F).insecure "; ",
        Join (analyzeHeaders T (ρ i) (Get i) ds[i] M I S F).security "; ",
        Join (analyzeHeaders T (ρ i) (Get i) ds[i] M I S F).fingerprint "; "]) := by
  refine ⟨rfl, ?_, saveResultsToCSV_written disk _, scanLoop_row_length T ρ Get M I S F 0 ds,
    ?_⟩
  · simp [scanLoop_length]
  · intro i hi
    have := scanLoop_getElem T ρ Get M I S F 0 ds i hi
    simp only [Nat.zero_add] at this
    rw [this, resultRow, analyzeHeaders_domain]

/-- C8 at a concrete run of two domains, the second with two insecure headers. -/
theorem csv_records_witness :
    (saveResultsToCSV ⟨true, fun _ => true, true⟩
      (scanLoop asciiTable (fun _ => RangeOrder.inOrder)
        (fun i _ => if i = 0 then none else some ⟨["Server", "X-Powered-By"], by decide⟩)
        ⟨["x-frame-options"], by decide⟩ ⟨["server", "x-powered-by"], by decide⟩
        GoMap.empty GoMap.empty 0 ["a.com", "b.com"])).2 =
      (if true = true then csvHeader ::
        scanLoop asciiTable (fun _ => RangeOrder.inOrder)
          (fun i _ => if i = 0 then none else some ⟨["Server", "X-Powered-By"], by decide⟩)
          ⟨["x-frame-options"], by decide⟩ ⟨["server", "x-powered-by"], by decide⟩
          GoMap.empty GoMap.empty 0 ["a.com", "b.com"] else []) ∧
    (saveResultsToCSV ⟨true, fun _ => true, true⟩
      (scanLoop asciiTable (fun _ => RangeOrder.inOrder)
        (fun i _ => if i = 0 then none else some ⟨["Server", "X-Powered-By"], by decide⟩)
        ⟨["x-frame-options"], by decide⟩ ⟨["server", "x-powered-by"], by decide⟩
        GoMap.empty GoMap.empty 0 ["a.com", "b.com"])).2 =
      [["URL", "Missing Headers", "Insecure Headers", "Security Headers",
          "Fingerprint Headers"],
        ["a.com", "Failed to connect", "", "", ""],
        ["b.com", "x-frame-options", "Server; X-Powered-By", "", ""]] :=
  ⟨(csv_records asciiTable (fun _ => RangeOrder.inOrder)
      (fun i _ => if i = 0 then none else some ⟨["Server", "X-Powered-By"], by decide⟩)
      ⟨["x-frame-options"], by decide⟩ ⟨["server", "x-powered-by"], by decide⟩
      GoMap.empty GoMap.empty ["a.com", "b.com"] ⟨true, fun _ => true, true⟩).2.2.1,
    by decide⟩

/-- C7, the code at the line `a.com b.com`: with a blank file name, `main` scans the
one domain `a.com`, while the white-space separated tokens of the line are `a.com`
and `b.com`. -/
theorem manual_mode_first_token_only :
    mainDomains (fun _ => .error "no such file") "\n" "a.com b.com\n" = .ok ["a.com"] ∧
    Fields "a.com b.com" = ["a.com", "b.com"] := by
  decide

/-- C9, the code on a disk where the file is created and every write and the flush
fail: `saveResultsToCSV` returns `nil`, although the write of the header record
returns an error. -/
theorem saveResultsToCSV_drops_write_errors :
    (saveResultsToCSV ⟨true, fun _ => false, false⟩
      [["example.com", "x-frame-options", "", "", ""]]).1 = none ∧
    writerWrite ⟨true, fun _ => false, false⟩ 0 csvHeader = some "write error" := by
  decide

/-! ## Lemmas on strings -/

theorem ToLower_idem (T : CaseTable) (s : String) : ToLower T (ToLower T s) = ToLower T s := by
  simp only [ToLower, List.map_map]
  congr 1
  apply List.map_congr_left
  intro r _
  exact T.idem r

theorem ToLower_eq_empty (T : CaseTable) (s : String) : ToLower T s = "" ↔ s = "" := by
  constructor
  · intro h
    have h2 := congrArg String.data h
    simp only [ToLower] at h2
    apply String.ext
    simpa using h2
  · rintro rfl
    rfl

theorem head_trim_not_space (l : List Char) (a : Char) (rest : List Char)
    (h : (l.dropWhile isSpace).rdropWhile isSpace = a :: rest) : isSpace a = false := by
  have hpre : (l.dropWhile isSpace).rdropWhile isSpace <+: l.dropWhile isSpace :=
    List.rdropWhile_prefix isSpace _
  rw [h] at hpre
  obtain ⟨t, ht⟩ := hpre
  have hd := List.head?_dropWhile_not isSpace l
  rw [← ht] at hd
  simpa using hd

theorem last_trim_not_space (l : List Char)
    (hne : (l.dropWhile isSpace).rdropWhile isSpace ≠ []) :
    isSpace (((l.dropWhile isSpace).rdropWhile isSpace).getLast hne) = false := by
  have := List.rdropWhile_last_not isSpace (l.dropWhile isSpace) hne
  simpa using this

/-- Trimming is the identity on the image, under a rune map that keeps non-blanks,
of a trimmed rune sequence. -/
theorem trim_map_trim (f : Char → Char) (hf : ∀ r, isSpace r = false → isSpace (f r) = false)
    (l : List Char) :
    (((((l.dropWhile isSpace).rdropWhile isSpace).map f).dropWhile isSpace).rdropWhile
      isSpace) = ((l.dropWhile isSpace).rdropWhile isSpace).map f := by
  cases hy : (l.dropWhile isSpace).rdropWhile isSpace with
  | nil => simp
  | cons a rest =>
    have ha : isSpace (f a) = false := hf a (head_trim_not_space l a rest hy)
    have hne : (l.dropWhile isSpace).rdropWhile isSpace ≠ [] := by simp [hy]
    have hlast := last_trim_not_space l hne
    have h1 : ((a :: rest).map f).dropWhile isSpace = (a :: rest).map f := by
      simp [List.dropWhile_cons, ha]
    rw [h1, List.rdropWhile_eq_self_iff]
    intro hl
    rw [List.getLast_map]
    have : ((l.dropWhile isSpace).rdropWhile isSpace).getLast hne =
        (a :: rest).getLast (by simp) := by
      simp only [hy]
    rw [this] at hlast
    simpa using hf _ hlast

theorem TrimSpace_ToLower_TrimSpace (T : CaseTable) (s : String) :
    TrimSpace (ToLower T (TrimSpace s)) = ToLower T (TrimSpace s) := by
  simp only [TrimSpace, ToLower]
  rw [trim_map_trim _ T.nonspace]

theorem trim_append_space (r : Char) (hr : isSpace r = true) (x : List Char) :
    ((x ++ [r]).dropWhile isSpace).rdropWhile isSpace =
      (x.dropWhile isSpace).rdropWhile isSpace := by
  induction x with
  | nil => simp [List.dropWhile_cons, hr]
  | cons a x ih =>
    by_cases ha : isSpace a = true
    · simpa [List.dropWhile_cons, ha] using ih
    · have h1 : ((a :: x) ++ [r]).dropWhile isSpace = (a :: x) ++ [r] := by
        simp [List.dropWhile_cons, ha]
      have h2 : (a :: x).dropWhile isSpace = a :: x := by
        simp [List.dropWhile_cons, ha]
      rw [h1, h2, List.rdropWhile_concat_pos _ _ _ hr]

theorem trim_dropCR (x : List Char) :
    ((dropCR x).dropWhile isSpace).rdropWhile isSpace =
      (x.dropWhile isSpace).rdropWhile isSpace := by
  unfold dropCR
  split
  · rename_i h
    obtain ⟨y, rfl⟩ : ∃ y, x = y ++ ['\r'] := by
      rcases List.eq_nil_or_concat x with hx | ⟨y, b, hx⟩
      · simp [hx] at h
      · subst hx
        simp at h
        exact ⟨y, by rw [h]; simp⟩
    rw [List.dropLast_concat, trim_append_space _ (by decide)]
  · rfl

theorem TrimSpace_dropCR (x : List Char) :
    TrimSpace ⟨dropCR x⟩ = TrimSpace ⟨x⟩ := by
  simp only [TrimSpace, trim_dropCR]

theorem byteLen_reverse (x : List Char) : byteLen x.reverse = byteLen x := by
  simp [byteLen, List.sum_reverse]

/-! ## Lemmas on `loadHeaders` -/

theorem mem_loadHeaders_fold (T : CaseTable) (lines : List String) (m : GoMap) (e : String) :
    e ∈ (lines.foldl (fun headers line =>
        if TrimSpace line ≠ "" ∧ HasPrefix (TrimSpace line) "#" = false then
          headers.set (ToLower T (TrimSpace line))
        else headers) m).keys ↔
      e ∈ m.keys ∨ ∃ l ∈ lines, TrimSpace l ≠ "" ∧ HasPrefix (TrimSpace l) "#" = false ∧
        e = ToLower T (TrimSpace l) := by
  induction lines generalizing m with
  | nil => simp
  | cons x xs ih =>
    rw [List.foldl_cons, ih]
    by_cases hx : TrimSpace x ≠ "" ∧ HasPrefix (TrimSpace x) "#" = false
    · rw [if_pos hx, GoMap.mem_set]
      constructor
      · rintro ((h | h) | ⟨l, hl, h1, h2, h3⟩)
        · exact Or.inr ⟨x, List.mem_cons_self _ _, hx.1, hx.2, h⟩
        · exact Or.inl h
        · exact Or.inr ⟨l, List.mem_cons_of_mem _ hl, h1, h2, h3⟩
      · rintro (h | ⟨l, hl, h1, h2, h3⟩)
        · exact Or.inl (Or.inr h)
        · rcases List.mem_cons.mp hl with rfl | hl
          · exact Or.inl (Or.inl h3)
          · exact Or.inr ⟨l, hl, h1, h2, h3⟩
    · rw [if_neg hx]
      constructor
      · rintro (h | ⟨l, hl, h1, h2, h3⟩)
        · exact Or.inl h
        · exact Or.inr ⟨l, List.mem_cons_of_mem _ hl, h1, h2, h3⟩
      · rintro (h | ⟨l, hl, h1, h2, h3⟩)
        · exact Or.inl h
        · rcases List.mem_cons.mp hl with rfl | hl
          · exact absurd ⟨h1, h2⟩ hx
          · exact Or.inr ⟨l, hl, h1, h2, h3⟩

/-- What `loadHeaders` returns for a file that can be read, and its entries. -/
theorem loadHeaders_ok (T : CaseTable) (ReadFile : String → Except String String)
    (filename content : String) (hread : ReadFile filename = .ok content) :
    ∃ m : GoMap, loadHeaders T ReadFile filename = .ok m ∧
      ∀ e, e ∈ m.keys ↔ ∃ l ∈ Split content '\n', TrimSpace l ≠ "" ∧
        HasPrefix (TrimSpace l) "#" = false ∧ e = ToLower T (TrimSpace l) := by
  refine ⟨(Split content '\n').foldl (fun headers line =>
      if TrimSpace line ≠ "" ∧ HasPrefix (TrimSpace line) "#" = false then
        headers.set (ToLower T (TrimSpace line))
      else headers) GoMap.empty, by simp only [loadHeaders, hread], ?_⟩
  intro e
  rw [mem_loadHeaders_fold]
  simp [GoMap.empty]

theorem mem_insecure_iff (T : CaseTable) (ρ : RangeOrder)
    (Get : String → Option GoMap) (domain : String) (M I S F H : GoMap)
    (hget : Get ("https://" ++ domain) = some H) (h : String) :
    h ∈ (analyzeHeaders T ρ Get domain M I S F).insecure ↔
      h ∈ H.keys ∧ ToLower T h ∈ I.keys := by
  rw [analyzeHeaders_insecure_eq T ρ Get domain M I S F H hget, List.mem_filter,
    RangeOrder.mem_range, GoMap.has_iff]

theorem mem_security_iff (T : CaseTable) (ρ : RangeOrder)
    (Get : String → Option GoMap) (domain : String) (M I S F H : GoMap)
    (hget : Get ("https://" ++ domain) = some H) (h : String) :
    h ∈ (analyzeHeaders T ρ Get domain M I S F).security ↔
      h ∈ H.keys ∧ ToLower T h ∈ S.keys := by
  rw [analyzeHeaders_security_eq T ρ Get domain M I S F H hget, List.mem_filter,
    RangeOrder.mem_range, GoMap.has_iff]

theorem mem_fingerprint_iff (T : CaseTable) (ρ : RangeOrder)
    (Get : String → Option GoMap) (domain : String) (M I S F H : GoMap)
    (hget : Get ("https://" ++ domain) = some H) (h : String) :
    h ∈ (analyzeHeaders T ρ Get domain M I S F).fingerprint ↔
      h ∈ H.keys ∧ ToLower T h ∈ F.keys := by
  rw [analyzeHeaders_fingerprint_eq T ρ Get domain M I S F H hget, List.mem_filter,
    RangeOrder.mem_range, GoMap.has_iff]

theorem unicodeToLower_F (tbl : Char → Char) : unicodeToLower tbl 'F' = 'f' := by
  rfl

theorem sentinel_not_lower (T : CaseTable) :
    ToLower T "Failed to connect" ≠ "Failed to connect" := by
  intro h
  have h2 := congrArg (fun s => s.data.head?) h
  simp only [ToLower] at h2
  have h3 : ("Failed to connect".data.map (unicodeToLower T.tbl)).head? =
      some (unicodeToLower T.tbl 'F') := rfl
  rw [h3, unicodeToLower_F] at h2
  exact absurd h2 (by decide)

/-- C4: for a list file that can be read, a line `n` of it that is neither blank nor
a comment, and a response header `h` whose lower-case form is that of the trimmed
`n`: the loaded set holds the entry of `n`; used as insecure, security or fingerprint
set it puts `h` into the corresponding list, and used as missing set it does not
report the entry of `n` missing. -/
theorem loaded_membership_case_insensitive (T : CaseTable)
    (ReadFile : String → Except String String) (filename content : String)
    (ρ : RangeOrder) (Get : String → Option GoMap) (domain : String) (H : GoMap)
    (n h : String)
    (hread : ReadFile filename = .ok content)
    (hline : n ∈ Split content '\n')
    (hblank : TrimSpace n ≠ "")
    (hcomment : HasPrefix (TrimSpace n) "#" = false)
    (hget : Get ("https://" ++ domain) = some H)
    (hh : h ∈ H.keys)
    (hcase : ToLower T h = ToLower T (TrimSpace n)) :
    ∃ L : GoMap, loadHeaders T ReadFile filename = .ok L ∧
      ToLower T (TrimSpace n) ∈ L.keys ∧
      (∀ A B C : GoMap, h ∈ (analyzeHeaders T ρ Get domain A L B C).insecure) ∧
      (∀ A B C : GoMap, h ∈ (analyzeHeaders T ρ Get domain A B L C).security) ∧
      (∀ A B C : GoMap, h ∈ (analyzeHeaders T ρ Get domain A B C L).fingerprint) ∧
      (∀ A B C : GoMap,
        ToLower T (TrimSpace n) ∉ (analyzeHeaders T ρ Get domain L A B C).missing) := by
  obtain ⟨L, hL, hmem⟩ := loadHeaders_ok T ReadFile filename content hread
  have he : ToLower T (TrimSpace n) ∈ L.keys :=
    (hmem _).mpr ⟨n, hline, hblank, hcomment, rfl⟩
  have hl : ToLower T h ∈ L.keys := by rw [hcase]; exact he
  refine ⟨L, hL, he, ?_, ?_, ?_, ?_⟩
  · intro A B C
    exact (mem_insecure_iff T ρ Get domain A L B C H hget h).mpr ⟨hh, hl⟩
  · intro A B C
    exact (mem_security_iff T ρ Get domain A B L C H hget h).mpr ⟨hh, hl⟩
  · intro A B C
    exact (mem_fingerprint_iff T ρ Get domain A B C L H hget h).mpr ⟨hh, hl⟩
  · intro A B C hmiss
    have := ((mem_missing_iff T ρ Get domain L A B C H hget _).mp hmiss).2 h hh
    rw [ToLower_idem] at this
    exact this hcase

/-- C4 at the example of the specification: the file line `X-Frame-Options` and the
response header `x-frame-options`. -/
theorem loaded_membership_case_insensitive_witness :
    ∃ L : GoMap,
      loadHeaders asciiTable (fun _ => .ok "# required\n\n  X-Frame-Options \r\n")
        "files/security.txt" = .ok L ∧
      ToLower asciiTable (TrimSpace "  X-Frame-Options \r") ∈ L.keys ∧
      (∀ A B C : GoMap, "x-frame-options" ∈ (analyzeHeaders asciiTable RangeOrder.inOrder
        (fun _ => some ⟨["x-frame-options"], by decide⟩) "example.com" A L B C).insecure) ∧
      (∀ A B C : GoMap, "x-frame-options" ∈ (analyzeHeaders asciiTable RangeOrder.inOrder
        (fun _ => some ⟨["x-frame-options"], by decide⟩) "example.com" A B L C).security) ∧
      (∀ A B C : GoMap, "x-frame-options" ∈ (analyzeHeaders asciiTable RangeOrder.inOrder
        (fun _ => some ⟨["x-frame-options"], by decide⟩) "example.com" A B C L).fingerprint) ∧
      (∀ A B C : GoMap, ToLower asciiTable (TrimSpace "  X-Frame-Options \r") ∉
        (analyzeHeaders asciiTable RangeOrder.inOrder
          (fun _ => some ⟨["x-frame-options"], by decide⟩) "example.com" L A B C).missing) :=
  loaded_membership_case_insensitive asciiTable
    (fun _ => .ok "# required\n\n  X-Frame-Options \r\n") "files/security.txt"
    "# required\n\n  X-Frame-Options \r\n" RangeOrder.inOrder
    (fun _ => some ⟨["x-frame-options"], by decide⟩) "example.com"
    ⟨["x-frame-options"], by decide⟩ "  X-Frame-Options \r" "x-frame-options"
    rfl (by decide) (by decide) (by decide) rfl (by decide) (by decide)

/-- C5: for a list file that can be read, the loaded set is exactly the set of the
lower-cased trimmed lines that are neither empty nor start with `#` after trimming:
such a line has its entry exactly once, however many lines yield it; every entry is
its own lower-case form, its own trimmed form and not empty; and a file of blank,
white-space and comment lines only gives the empty set. -/
theorem loadHeaders_exact (T : CaseTable) (ReadFile : String → Except String String)
    (filename content : String) (hread : ReadFile filename = .ok content) :
    ∃ m : GoMap, loadHeaders T ReadFile filename = .ok m ∧
      (∀ e, e ∈ m.keys ↔ ∃ l ∈ Split content '\n', TrimSpace l ≠ "" ∧
        HasPrefix (TrimSpace l) "#" = false ∧ e = ToLower T (TrimSpace l)) ∧
      (∀ l ∈ Split content '\n', TrimSpace l ≠ "" → HasPrefix (TrimSpace l) "#" = false →
        m.keys.count (ToLower T (TrimSpace l)) = 1) ∧
      (∀ e ∈ m.keys, ToLower T e = e ∧ TrimSpace e = e ∧ e ≠ "") ∧
      ((∀ l ∈ Split content '\n', TrimSpace l = "" ∨ HasPrefix (TrimSpace l) "#" = true) →
        m.keys = []) := by
  obtain ⟨m, hm, hmem⟩ := loadHeaders_ok T ReadFile filename content hread
  refine ⟨m, hm, hmem, ?_, ?_, ?_⟩
  · intro l hl h1 h2
    exact List.count_eq_one_of_mem m.nodup ((hmem _).mpr ⟨l, hl, h1, h2, rfl⟩)
  · intro e he
    obtain ⟨l, _, h1, _, rfl⟩ := (hmem e).mp he
    refine ⟨ToLower_idem T _, TrimSpace_ToLower_TrimSpace T l, ?_⟩
    intro h
    exact h1 ((ToLower_eq_empty T _).mp h)
  · intro hall
    apply List.eq_nil_iff_forall_not_mem.mpr
    intro e he
    obtain ⟨l, hl, h1, h2, _⟩ := (hmem e).mp he
    rcases hall l hl with h | h
    · exact h1 h
    · rw [h] at h2
      exact Bool.noConfusion h2

/-- C5 at a concrete file: a comment, a blank line, a white-space line and three
spellings of one header name give one entry. -/
theorem loadHeaders_exact_witness :
    ∃ m : GoMap,
      loadHeaders asciiTable
        (fun _ => .ok "# list\n\n \t\nServer\n  SERVER \r\nserver\n  # x\nX-Powered-By")
        "files/insecure.txt" = .ok m ∧
      m.keys = ["x-powered-by", "server"] :=
  (loadHeaders_exact asciiTable
    (fun _ => .ok "# list\n\n \t\nServer\n  SERVER \r\nserver\n  # x\nX-Powered-By")
    "files/insecure.txt"
    "# list\n\n \t\nServer\n  SERVER \r\nserver\n  # x\nX-Powered-By" rfl).elim
    (fun m hm => ⟨m, hm.1, by
      have h := hm.1
      have h2 : loadHeaders asciiTable
        (fun _ => .ok "# list\n\n \t\nServer\n  SERVER \r\nserver\n  # x\nX-Powered-By")
        "files/insecure.txt" = .ok ⟨["x-powered-by", "server"], by decide⟩ := by decide
      rw [h2] at h
      cases h
      rfl⟩)

/-- C10: for a missing set loaded from a list file that can be read, no successful
response gives a missing list that holds `"Failed to connect"`, and a result whose
missing list is `["Failed to connect"]` comes from a failed request. -/
theorem sentinel_unambiguous (T : CaseTable) (ReadFile : String → Except String String)
    (filename content : String) (hread : ReadFile filename = .ok content) :
    ∃ M : GoMap, loadHeaders T ReadFile filename = .ok M ∧
      (∀ e ∈ M.keys, ToLower T e = e ∧ e ≠ "Failed to connect") ∧
      ∀ (ρ : RangeOrder) (Get : String → Option GoMap) (domain : String) (I S F : GoMap),
        (∀ H, Get ("https://" ++ domain) = some H →
          "Failed to connect" ∉ (analyzeHeaders T ρ Get domain M I S F).missing) ∧
        ((analyzeHeaders T ρ Get domain M I S F).missing = ["Failed to connect"] →
          Get ("https://" ++ domain) = none) := by
  obtain ⟨M, hM, hmem⟩ := loadHeaders_ok T ReadFile filename content hread
  have hlow : ∀ e ∈ M.keys, ToLower T e = e ∧ e ≠ "Failed to connect" := by
    intro e he
    obtain ⟨l, _, _, _, rfl⟩ := (hmem e).mp he
    refine ⟨ToLower_idem T _, ?_⟩
    intro h
    have h2 := ToLower_idem T (TrimSpace l)
    rw [h] at h2
    exact sentinel_not_lower T h2
  have hnot : ∀ (ρ : RangeOrder) (Get : String → Option GoMap) (domain : String)
      (I S F : GoMap), ∀ H, Get ("https://" ++ domain) = some H →
        "Failed to connect" ∉ (analyzeHeaders T ρ Get domain M I S F).missing := by
    intro ρ Get domain I S F H hget hin
    have := ((mem_missing_iff T ρ Get domain M I S F H hget _).mp hin).1
    exact (hlow _ this).2 rfl
  refine ⟨M, hM, hlow, ?_⟩
  intro ρ Get domain I S F
  refine ⟨hnot ρ Get domain I S F, ?_⟩
  intro hmiss
  cases hget : Get ("https://" ++ domain) with
  | none => rfl
  | some H =>
    exfalso
    apply hnot ρ Get domain I S F H hget
    rw [hmiss]
    exact List.mem_singleton_self _

/-- C10 at a concrete file: even a list file with the line `Failed to connect` loads
the lower-case entry, which is not the sentinel. -/
theorem sentinel_unambiguous_witness :
    ∃ M : GoMap,
      loadHeaders asciiTable (fun _ => .ok "Failed to connect\nX-Frame-Options\n")
        "files/missing.txt" = .ok M ∧
      (∀ e ∈ M.keys, ToLower asciiTable e = e ∧ e ≠ "Failed to connect") ∧
      ∀ (ρ : RangeOrder) (Get : String → Option GoMap) (domain : String) (I S F : GoMap),
        (∀ H, Get ("https://" ++ domain) = some H →
          "Failed to connect" ∉
            (analyzeHeaders asciiTable ρ Get domain M I S F).missing) ∧
        ((analyzeHeaders asciiTable ρ Get domain M I S F).missing = ["Failed to connect"] →
          Get ("https://" ++ domain) = none) :=
  sentinel_unambiguous asciiTable (fun _ => .ok "Failed to connect\nX-Frame-Options\n")
    "files/missing.txt" "Failed to connect\nX-Frame-Options\n" rfl

/-! ## Lemmas on `readDomainsFromFile` -/

theorem TrimSpace_empty : TrimSpace "" = "" := by
  decide

theorem foldl_domains (tokens init : List String) :
    tokens.foldl (fun domains text =>
      if TrimSpace text ≠ "" then domains ++ [TrimSpace text] else domains) init =
      init ++ (tokens.map TrimSpace).filter (fun d => decide (d ≠ "")) := by
  induction tokens generalizing init with
  | nil => simp
  | cons x xs ih =>
    rw [List.foldl_cons, ih]
    by_cases hx : TrimSpace x ≠ ""
    · simp [hx]
    · simp [hx]

/-- The scanner against `strings.Split`: when every line fits the buffer, the
scanner ends without an error, and its tokens, trimmed and without the empty ones,
are the lines, trimmed and without the empty ones. -/
theorem scanGo_eq_split (rest cur : List Char)
    (hfit : ∀ l ∈ splitGo '\n' cur rest, byteLen l.data < MaxScanTokenSize) :
    (scanGo cur rest).2 = none ∧
      ((scanGo cur rest).1.map TrimSpace).filter (fun d => decide (d ≠ "")) =
        ((splitGo '\n' cur rest).map TrimSpace).filter (fun d => decide (d ≠ "")) := by
  induction rest generalizing cur with
  | nil =>
    have hlen : byteLen cur < MaxScanTokenSize := by
      have := hfit ⟨cur.reverse⟩ (by simp [splitGo])
      simpa [byteLen_reverse] using this
    by_cases hc : cur = []
    · subst hc
      simp [scanGo, splitGo, TrimSpace_empty]
    · have hnot : ¬ MaxScanTokenSize ≤ byteLen cur := by omega
      simp [scanGo, splitGo, hc, hnot, TrimSpace_dropCR]
  | cons c cs ih =>
    by_cases hnl : c = '\n'
    · subst hnl
      have hsplit : splitGo '\n' cur ('\n' :: cs) = ⟨cur.reverse⟩ :: splitGo '\n' [] cs := by
        simp [splitGo]
      rw [hsplit] at hfit ⊢
      have hlen : byteLen cur < MaxScanTokenSize := by
        have := hfit ⟨cur.reverse⟩ (List.mem_cons_self _ _)
        simpa [byteLen_reverse] using this
      have hnot : ¬ MaxScanTokenSize ≤ byteLen cur := by omega
      have hrec := ih [] (fun l hl => hfit l (List.mem_cons_of_mem _ hl))
      have hscan : scanGo cur ('\n' :: cs) =
          (⟨dropCR cur.reverse⟩ :: (scanGo [] cs).1, (scanGo [] cs).2) := by
        simp [scanGo, hnot]
      rw [hscan]
      refine ⟨hrec.1, ?_⟩
      simp only [List.map_cons, List.filter_cons, TrimSpace_dropCR, hrec.2]
    · have hsplit : splitGo '\n' cur (c :: cs) = splitGo '\n' (c :: cur) cs := by
        simp [splitGo, hnl]
      have hscan : scanGo cur (c :: cs) = scanGo (c :: cur) cs := by
        simp [scanGo, hnl]
      rw [hsplit] at hfit ⊢
      rw [hscan]
      exact ih (c :: cur) hfit

/-- The scanner stops with an error when a line does not fit the buffer. -/
theorem scanGo_too_long (rest cur : List Char)
    (hlong : ∃ l ∈ splitGo '\n' cur rest, MaxScanTokenSize ≤ byteLen l.data) :
    (scanGo cur rest).2 = some ErrTooLong := by
  induction rest generalizing cur with
  | nil =>
    obtain ⟨l, hl, hlen⟩ := hlong
    simp only [splitGo, List.mem_singleton] at hl
    subst hl
    have hlen2 : MaxScanTokenSize ≤ byteLen cur := by simpa [byteLen_reverse] using hlen
    have hc : cur ≠ [] := by
      rintro rfl
      simp [byteLen, MaxScanTokenSize] at hlen2
    simp [scanGo, hc, hlen2]
  | cons c cs ih =>
    by_cases hnl : c = '\n'
    · subst hnl
      by_cases hcur : MaxScanTokenSize ≤ byteLen cur
      · simp [scanGo, hcur]
      · obtain ⟨l, hl, hlen⟩ := hlong
        simp only [splitGo, if_true, List.mem_cons] at hl
        rcases hl with rfl | hl
        · exact absurd (by simpa [byteLen_reverse] using hlen) hcur
        · have := ih [] ⟨l, hl, hlen⟩
          simp [scanGo, hcur, this]
    · have hsplit : splitGo '\n' cur (c :: cs) = splitGo '\n' (c :: cur) cs := by
        simp [splitGo, hnl]
      have hscan : scanGo cur (c :: cs) = scanGo (c :: cur) cs := by
        simp [scanGo, hnl]
      rw [hsplit] at hlong
      rw [hscan]
      exact ih (c :: cur) hlong

/-- The error path of `readDomainsFromFile`: a file with a line of `MaxScanTokenSize`
bytes or more is not read; the scanner's error is returned. -/
theorem readDomainsFromFile_too_long (Open : String → Except String String)
    (filename content : String) (hopen : Open filename = .ok content)
    (hlong : ∃ l ∈ Split content '\n', MaxScanTokenSize ≤ byteLen l.data) :
    readDomainsFromFile Open filename = .error ErrTooLong := by
  have h := scanGo_too_long content.data [] hlong
  simp only [readDomainsFromFile, hopen, h]

theorem splitGo_replicate (sep a : Char) (ha : a ≠ sep) (n : Nat) (cur rest : List Char) :
    splitGo sep cur (List.replicate n a ++ rest) =
      splitGo sep (List.replicate n a ++ cur) rest := by
  induction n generalizing cur with
  | zero => simp
  | succ n ih =>
    have h1 : List.replicate (n + 1) a ++ rest = a :: (List.replicate n a ++ rest) := by
      simp [List.replicate_succ]
    have h2 : List.replicate n a ++ a :: cur = List.replicate (n + 1) a ++ cur := by
      rw [List.replicate_succ', List.append_assoc]
      rfl
    rw [h1]
    simp only [splitGo, if_neg ha]
    rw [ih, h2]

theorem splitGo_sep (sep : Char) (cur cs : List Char) :
    splitGo sep cur (sep :: cs) = ⟨cur.reverse⟩ :: splitGo sep [] cs := by
  simp [splitGo]

theorem byteLen_replicate_a (n : Nat) : byteLen (List.replicate n 'a') = n := by
  have h : Char.utf8Size 'a' = 1 := by decide
  simp [byteLen, List.map_replicate, List.sum_replicate, h]

theorem Split_longFile :
    Split longFile '\n' = [⟨List.replicate MaxScanTokenSize 'a'⟩, "b.com"] := by
  unfold Split longFile
  rw [splitGo_replicate '\n' 'a' (by decide)]
  simp only [List.append_nil]
  have h : splitGo '\n' (List.replicate MaxScanTokenSize 'a') ['\n', 'b', '.', 'c', 'o', 'm'] =
      [⟨(List.replicate MaxScanTokenSize 'a').reverse⟩, "b.com"] := by
    have hb : splitGo '\n' [] ['b', '.', 'c', 'o', 'm'] = ["b.com"] := by decide
    rw [splitGo_sep, hb]
  rw [h, List.reverse_replicate]

/-- C6, the claim as worded at a file that can be opened: `longFile` has the two
lines `aa...a` (65536 letters) and `b.com`, but `readDomainsFromFile` returns the
error of the scanner and no list. -/
theorem readDomainsFromFile_long_line_fails :
    Split longFile '\n' = [⟨List.replicate MaxScanTokenSize 'a'⟩, "b.com"] ∧
    readDomainsFromFile (fun _ => .ok longFile) "domains.txt" = .error ErrTooLong ∧
    readDomainsFromFile (fun _ => .ok longFile) "domains.txt" ≠
      .ok (((Split longFile '\n').map TrimSpace).filter (fun d => decide (d ≠ ""))) := by
  have herr : readDomainsFromFile (fun _ => .ok longFile) "domains.txt" = .error ErrTooLong := by
    apply readDomainsFromFile_too_long (fun _ => .ok longFile) "domains.txt" longFile rfl
    refine ⟨⟨List.replicate MaxScanTokenSize 'a'⟩, ?_, ?_⟩
    · rw [Split_longFile]
      exact List.mem_cons_self _ _
    · rw [byteLen_replicate_a]
  refine ⟨Split_longFile, herr, ?_⟩
  rw [herr]
  intro h
  cases h

/-- C6 as amended: for a domain file that can be opened and each of whose lines is
shorter than `MaxScanTokenSize` (65536) bytes, `readDomainsFromFile` returns exactly
the trimmed lines of the file that are not empty after trimming, in file order and
with duplicates kept, so as many entries as the file has non-blank lines. -/
theorem readDomainsFromFile_short_lines (Open : String → Except String String)
    (filename content : String) (hopen : Open filename = .ok content)
    (hfit : ∀ l ∈ Split content '\n', byteLen l.data < MaxScanTokenSize) :
    ∃ ds, readDomainsFromFile Open filename = .ok ds ∧
      ds = ((Split content '\n').map TrimSpace).filter (fun d => decide (d ≠ "")) ∧
      ds.length = (Split content '\n').countP (fun l => decide (TrimSpace l ≠ "")) := by
  have h := scanGo_eq_split content.data [] hfit
  refine ⟨_, ?_, rfl, ?_⟩
  · simp only [readDomainsFromFile, hopen, h.1, foldl_domains, List.nil_append, h.2, Split]
  · rw [List.countP_eq_length_filter, List.filter_map, List.length_map]
    rfl

/-- C6 as amended, at the example of the specification: three domain lines, one of
them twice, with blank lines between them. -/
theorem readDomainsFromFile_short_lines_witness :
    (∀ l ∈ Split "b.com\r\n\n  a.com \n \t\nb.com" '\n',
      byteLen l.data < MaxScanTokenSize) ∧
    ∃ ds, readDomainsFromFile (fun _ => .ok "b.com\r\n\n  a.com \n \t\nb.com")
        "domains.txt" = .ok ds ∧
      ds = ((Split "b.com\r\n\n  a.com \n \t\nb.com" '\n').map TrimSpace).filter
        (fun d => decide (d ≠ "")) ∧
      ds.length = (Split "b.com\r\n\n  a.com \n \t\nb.com" '\n').countP
        (fun l => decide (TrimSpace l ≠ "")) :=
  ⟨by decide,
    readDomainsFromFile_short_lines (fun _ => .ok "b.com\r\n\n  a.com \n \t\nb.com")
      "domains.txt" "b.com\r\n\n  a.com \n \t\nb.com" rfl (by decide)⟩

theorem readDomainsFromFile_example :
    readDomainsFromFile (fun _ => .ok "b.com\r\n\n  a.com \n \t\nb.com") "domains.txt" =
      .ok ["b.com", "a.com", "b.com"] := by
  decide

end HeadersCheck
